import Mathlib

/-!
Verification of the Ludwig Ray backend (`ludwig/backend/ray.py`) and the
cache manager (`ludwig/data/cache/manager.py`): a shallow embedding of the
resource bucketer, the remote-model handle, the training coordinator, the
metric collector, the batch predictor and the cache-path construction,
together with theorems checking the specified behaviour.
-/

/-- Metric mappings are ordered association lists from metric name to a
numeric value; `sum_dicts` merges them by key. Python float values are
modelled as rationals. -/
abbrev MetricsMapping := List (String × ℚ)

/-- Helper of `sum_dicts`: fold one `(key, value)` entry into the
accumulated ordered mapping, summing with the existing value when the key
is already present and appending a new entry otherwise. -/
def addEntry : MetricsMapping → String × ℚ → MetricsMapping
  | [], kv => [kv]
  | (k, v) :: rest, kv =>
    if k = kv.1 then (k, v + kv.2) :: rest else (k, v) :: addEntry rest kv

/-- Modelled from the spec: `sum_dicts` (imported by `ray.py` from
`ludwig.utils.misc_utils`, which is not among the sources) merges an
ordered list of metric mappings by element-wise summation keyed by metric
name, output keys kept in first-appearance order. -/
def sum_dicts (ds : List MetricsMapping) : MetricsMapping :=
  ds.foldl (fun acc d => d.foldl addEntry acc) []

/-- State of the `MetricCollector` Ray actor: the ordered list of metric
mappings received so far (`self.metrics`). -/
structure MetricCollector where
  metrics : List MetricsMapping
  deriving DecidableEq

/-- `MetricCollector.__init__`: the actor starts with an empty list. -/
def MetricCollector.init : MetricCollector := ⟨[]⟩

/-- `MetricCollector.add_metrics`: append one received mapping. -/
def MetricCollector.add_metrics (c : MetricCollector) (m : MetricsMapping) :
    MetricCollector :=
  ⟨c.metrics ++ [m]⟩

/-- `MetricCollector.collect`: merge all received mappings with
`sum_dicts`; the body is a single `return`, reading `self.metrics`. -/
def MetricCollector.collect (c : MetricCollector) : MetricsMapping :=
  sum_dicts c.metrics

/-- Messages understood by the `MetricCollector` actor. -/
inductive ActorMsg where
  | add : MetricsMapping → ActorMsg
  | collect : ActorMsg

/-- One actor method invocation: the actor state afterwards and the reply.
`add_metrics` extends the state and returns nothing; `collect` only reads
`self.metrics`. -/
def MetricCollector.step (c : MetricCollector) :
    ActorMsg → MetricCollector × Option MetricsMapping
  | .add m => (c.add_metrics m, none)
  | .collect => (c, some c.collect)

/-- Resources reported by one cluster node (`node['Resources']`), reduced
to the two kinds the code inspects; a resource kind a node does not
advertise is read as 0 (`node_resources.get(key, 0)`). -/
structure NodeResources where
  gpu : Nat
  cpu : Nat
  deriving DecidableEq

/-- Cluster-wide GPU total, `ray.cluster_resources().get('GPU', 0)`. -/
def clusterGpuTotal (nodes : List NodeResources) : Nat :=
  (nodes.map NodeResources.gpu).sum

/-- Count of the target resource on one node: GPUs when `use_gpu` and
CPUs otherwise, `int(node_resources.get(key, 0))`. -/
def nodeCount (use_gpu : Bool) (n : NodeResources) : Nat :=
  if use_gpu then n.gpu else n.cpu

/-- One bucket: a slot count together with the nodes reporting it. -/
abbrev Bucket := Nat × List NodeResources

/-- Append one node to the bucket keyed by `k`, keeping the first-seen
key order of a Python `defaultdict` (dicts are insertion-ordered). -/
def addToBuckets : List Bucket → Nat → NodeResources → List Bucket
  | [], k, n => [(k, [n])]
  | (k', ns) :: rest, k, n =>
    if k' = k then (k', ns ++ [n]) :: rest else (k', ns) :: addToBuckets rest k n

/-- Group the nodes by their count of the target resource, in the manner
of `buckets[int(node_resources.get(key, 0))].append(node_resources)`. -/
def buildBuckets (use_gpu : Bool) (nodes : List NodeResources) : List Bucket :=
  nodes.foldl (fun bs n => addToBuckets bs (nodeCount use_gpu n) n) []

/-- Score of a bucket, `slots * len(resources)` (`get_total_resources`
inside `get_horovod_kwargs`). -/
def get_total_resources (b : Bucket) : Nat := b.1 * b.2.length

/-- Running fold of Python `max(xs, key=f)` over the tail: keep the
current best unless a later element scores strictly higher, so the first
maximal element wins. -/
def pyFold {α : Type} (score : α → Nat) (best : α) (ys : List α) : α :=
  ys.foldl (fun b z => if score b < score z then z else b) best

/-- Python `max(xs, key=f)`: the first element attaining the maximal
score; `none` on an empty sequence, where Python raises `ValueError`. -/
def pyMaxBy {α : Type} (score : α → Nat) : List α → Option α
  | [] => none
  | x :: xs => some (pyFold score x xs)

/-- Result dict of `get_horovod_kwargs`. -/
structure HorovodKwargs where
  num_slots : Nat
  num_hosts : Nat
  use_gpu : Bool
  deriving DecidableEq

/-- `get_horovod_kwargs`: target GPUs when the cluster-wide GPU total is
positive and CPUs otherwise, bucket the nodes by their count of that
resource, and return the bucket maximizing `num_slots * num_hosts`;
`none` when there are no node reports (Python `max` raises there). -/
def get_horovod_kwargs (nodes : List NodeResources) : Option HorovodKwargs :=
  let use_gpu := decide (0 < clusterGpuTotal nodes)
  (pyMaxBy get_total_resources (buildBuckets use_gpu nodes)).map
    (fun b => ⟨b.1, b.2.length, use_gpu⟩)

/-- A model object as seen through the pickle reduce protocol: a type
reference, the recorded constructor arguments, and the mutable observable
state (weights, optimizer state, buffers), the three components that
`model.__reduce__()` yields. -/
structure Model where
  cls : Nat
  args : List Int
  weights : List Int
  deriving DecidableEq

/-- `model.set_weights`: replace the weights in place, leaving the type
reference and constructor arguments untouched. -/
def Model.set_weights (m : Model) (w : List Int) : Model :=
  ⟨m.cls, m.args, w⟩

/-- The Ray object store: `ray.put` appends an immutable entry and
returns its reference, `ray.get` reads an entry by reference. -/
structure ObjectStore where
  entries : List (List Int)
  deriving DecidableEq

/-- `ray.put`: publish a blob, returning the new store and the
reference. -/
def ray_put (st : ObjectStore) (v : List Int) : ObjectStore × Nat :=
  (⟨st.entries ++ [v]⟩, st.entries.length)

/-- `ray.get`: fetch a blob by reference; `none` when the entry does not
exist. -/
def ray_get (st : ObjectStore) (r : Nat) : Option (List Int) :=
  st.entries.get? r

/-- `RayRemoteModel` handle: the recorded class, constructor arguments,
and the object-store reference of the state blob. -/
structure RayRemoteModel where
  cls : Nat
  args : List Int
  state : Nat
  deriving DecidableEq

/-- `RayRemoteModel.__init__`: unpack `model.__reduce__()` and publish
the state blob with a single `ray.put`. -/
def RayRemoteModel.init (st : ObjectStore) (m : Model) :
    ObjectStore × RayRemoteModel :=
  let pr := ray_put st m.weights
  (pr.1, ⟨m.cls, m.args, pr.2⟩)

/-- Pickle protocol step `self.cls(*self.args)`: a fresh instance built
from the recorded type reference and constructor arguments, with default
(empty) state. -/
def pickleConstruct (cls : Nat) (args : List Int) : Model :=
  ⟨cls, args, []⟩

/-- Pickle protocol step `obj.__setstate__(state)`: restore the stored
observable state into the fresh instance. -/
def Model.setstate (m : Model) (s : List Int) : Model :=
  ⟨m.cls, m.args, s⟩

/-- `RayRemoteModel.load`: reconstruct a fresh instance from the recorded
class and arguments, fetch the state blob with `ray.get` and restore it.
The load is read-only on the store, so any number of loads of the same
handle behave alike, each producing an independent fresh instance. -/
def RayRemoteModel.load (st : ObjectStore) (h : RayRemoteModel) :
    Option Model :=
  (ray_get st h.state).map (fun s => (pickleConstruct h.cls h.args).setstate s)

/-- Errors surfaced by a dispatched worker or partition closure: the
closure raised (`workerFailure`), the dispatch result list was empty so
that `results[0]` raises (`indexError`), or the handle's backing store
entry could not be fetched (`handleExpired`). -/
inductive ExecError where
  | workerFailure : Nat → ExecError
  | indexError : ExecError
  | handleExpired : ExecError
  deriving DecidableEq

/-- What one worker returns from `RayRemoteTrainer.train`: its post-train
weights plus the auxiliary stats, `(model.get_weights(), *stats)`. -/
abbrev WorkerTrainResult := List Int × List Int

/-- `RayTrainer.train` after dispatch: given the outcome of
`executor.execute` over the workers (in worker order), destructure
`results[0]` into weights and stats, apply `model.set_weights(weights)`
to the caller's model and return it with that worker's stats. The first
component of the output is the caller's model object after the call: it
is mutated only if `set_weights` is reached. -/
def RayTrainer.train (model : Model)
    (execResult : Except ExecError (List WorkerTrainResult)) :
    Model × Except ExecError (Model × List Int) :=
  match execResult with
  | .error e => (model, .error e)
  | .ok [] => (model, .error .indexError)
  | .ok (r :: _) => (model.set_weights r.1, .ok (model.set_weights r.1, r.2))

/-- `RayTrainer.train_online` after dispatch: `results[0]` is the first
worker's weights; apply them to the caller's model and return it. -/
def RayTrainer.train_online (model : Model)
    (execResult : Except ExecError (List (List Int))) :
    Model × Except ExecError Model :=
  match execResult with
  | .error e => (model, .error e)
  | .ok [] => (model, .error .indexError)
  | .ok (w :: _) => (model.set_weights w, .ok (model.set_weights w))

/-- Values appearing in keyword-argument dictionaries. -/
inductive KwVal where
  | nat : Nat → KwVal
  | bool : Bool → KwVal
  deriving DecidableEq

/-- A Python keyword-argument dictionary: insertion-ordered association
list with unique keys. -/
abbrev KwDict := List (String × KwVal)

/-- Python dict assignment `d[k] = v`: replace the value of an existing
key in place, else append the new key at the end. -/
def dictInsert : KwDict → String → KwVal → KwDict
  | [], k, v => [(k, v)]
  | (k', v') :: rest, k, v =>
    if k' = k then (k', v) :: rest else (k', v') :: dictInsert rest k v

/-- Python dict lookup. -/
def dictGet : KwDict → String → Option KwVal
  | [], _ => none
  | (k', v') :: rest, k => if k' = k then some v' else dictGet rest k

/-- Python `\x7b**a, **b\x7d`: the entries of `b` inserted over those of
`a`, so `b` wins on common keys. -/
def dictMerge (a b : KwDict) : KwDict :=
  b.foldl (fun d kv => dictInsert d kv.1 kv.2) a

/-- The derived kwargs as a dict, in the key order `get_horovod_kwargs`
builds its result. -/
def HorovodKwargs.toDict (kw : HorovodKwargs) : KwDict :=
  [("num_slots", .nat kw.num_slots),
   ("num_hosts", .nat kw.num_hosts),
   ("use_gpu", .bool kw.use_gpu)]

/-- What `RayTrainer.__init__` hands the Horovod executor: the settings
carry a coordination timeout hardcoded to 30 seconds, from
`RayExecutor.create_settings(timeout_s=30)`, and the keyword arguments
are the dict merge of the derived resource configuration with the
caller-supplied `horovod_kwargs`. -/
structure ExecutorSetup where
  timeout_s : Nat
  kwargs : KwDict
  deriving DecidableEq

/-- The executor setup built by `RayTrainer.__init__` from the derived
resource configuration and the caller's overrides. -/
def RayTrainer.init_setup (derived : HorovodKwargs)
    (horovod_kwargs : KwDict) : ExecutorSetup :=
  ⟨30, dictMerge derived.toDict horovod_kwargs⟩

/-- One dataset partition, an opaque payload. -/
abbrev DataPartition := List Int

/-- The per-partition closure of `batch_predict`: load the handle into a
local model and run the worker-local prediction routine `pred` (the
external `Predictor(**predictor_kwargs).batch_predict`) over the
partition; `none` records a failed handle fetch. -/
def batch_predict_partition (pred : Model → DataPartition → List Int)
    (st : ObjectStore) (h : RayRemoteModel) (p : DataPartition) :
    Option (List Int) :=
  (RayRemoteModel.load st h).map (fun m => pred m p)

/-- `RayPredictor.batch_predict`: capture the model once, then map every
dataset partition through the partition task, each loading that same
handle. -/
def RayPredictor.batch_predict (pred : Model → DataPartition → List Int)
    (st : ObjectStore) (model : Model) (dataset : List DataPartition) :
    ObjectStore × List (Option (List Int)) :=
  let cap := RayRemoteModel.init st model
  (cap.1, dataset.map (batch_predict_partition pred cap.1 cap.2))

/-- The per-partition closure of `batch_evaluation`: load the handle, run
the worker-local evaluation routine `ev`, push the partition's metrics to
the collector actor (`metric_collector.add_metrics.remote`) and return
the partition's predictions. The actor interaction is threaded as
explicit collector state; `none` records a failed handle fetch. -/
def batch_evaluate_partition (ev : Model → DataPartition → MetricsMapping × List Int)
    (st : ObjectStore) (h : RayRemoteModel)
    (acc : MetricCollector × List (Option (List Int))) (p : DataPartition) :
    MetricCollector × List (Option (List Int)) :=
  match RayRemoteModel.load st h with
  | none => (acc.1, acc.2 ++ [none])
  | some m => ((acc.1).add_metrics (ev m p).1, acc.2 ++ [some (ev m p).2])

/-- `RayPredictor.batch_evaluation`: create one fresh `MetricCollector`
actor, capture the model once, run every partition task against that same
handle and collector, then collect the merged metrics. -/
def RayPredictor.batch_evaluation
    (ev : Model → DataPartition → MetricsMapping × List Int)
    (st : ObjectStore) (model : Model) (dataset : List DataPartition) :
    ObjectStore × MetricsMapping × List (Option (List Int)) :=
  let cap := RayRemoteModel.init st model
  let run := dataset.foldl (batch_evaluate_partition ev cap.1 cap.2)
    (MetricCollector.init, [])
  (cap.1, run.1.collect, run.2)

/-- The per-partition closure of `batch_predict` when the worker-local
prediction routine itself may raise: an exception raised inside the
dispatched closure becomes that partition task's error, and a failed
handle fetch surfaces as `handleExpired`. -/
def batch_predict_partition_f
    (pred : Model → DataPartition → Except ExecError (List Int))
    (st : ObjectStore) (h : RayRemoteModel) (p : DataPartition) :
    Except ExecError (List Int) :=
  match RayRemoteModel.load st h with
  | none => .error .handleExpired
  | some m => pred m p

/-- Materializing the lazily mapped partition results of `batch_predict`:
forcing the stream succeeds only when every partition task succeeded, and
the first raising task aborts the whole computation with its error — no
partial silent success. -/
def forcePartitions : List (Except ExecError (List Int)) →
    Except ExecError (List (List Int))
  | [] => .ok []
  | .error e :: _ => .error e
  | .ok r :: rest => (forcePartitions rest).map (fun rs => r :: rs)

/-- `RayPredictor.batch_predict` with a fallible worker routine, as
materialized by the caller: capture the model once, run every partition
task against that handle and force the stream. The middle component is
the caller's model object after the call; no path of `batch_predict`
mutates it (the function contains no `set_weights` call). -/
def RayPredictor.batch_predict_forced
    (pred : Model → DataPartition → Except ExecError (List Int))
    (st : ObjectStore) (model : Model) (dataset : List DataPartition) :
    ObjectStore × Model × Except ExecError (List (List Int)) :=
  let cap := RayRemoteModel.init st model
  (cap.1, model,
    forcePartitions (dataset.map (batch_predict_partition_f pred cap.1 cap.2)))

/-- The per-partition closure of `batch_evaluation` when the worker-local
evaluation routine itself may raise: on success the partition's metrics
are pushed to the collector and its predictions appended; a raised
exception aborts with that error before `add_metrics` is reached. -/
def batch_evaluate_partition_f
    (ev : Model → DataPartition → Except ExecError (MetricsMapping × List Int))
    (st : ObjectStore) (h : RayRemoteModel)
    (acc : MetricCollector × List (List Int)) (p : DataPartition) :
    Except ExecError (MetricCollector × List (List Int)) :=
  match RayRemoteModel.load st h with
  | none => .error .handleExpired
  | some m =>
    match ev m p with
    | .error e => .error e
    | .ok mp => .ok (acc.1.add_metrics mp.1, acc.2 ++ [mp.2])

/-- Run the evaluation partition tasks in order, aborting the whole run
with the first raising task's error. -/
def run_evaluate_partitions
    (ev : Model → DataPartition → Except ExecError (MetricsMapping × List Int))
    (st : ObjectStore) (h : RayRemoteModel) :
    MetricCollector × List (List Int) → List DataPartition →
      Except ExecError (MetricCollector × List (List Int))
  | acc, [] => .ok acc
  | acc, p :: ps =>
    match batch_evaluate_partition_f ev st h acc p with
    | .error e => .error e
    | .ok acc' => run_evaluate_partitions ev st h acc' ps

/-- `RayPredictor.batch_evaluation` with a fallible worker routine, as
materialized by the caller: capture once, run every partition task
against the one handle and the one collector actor, then collect the
merged metrics; the first raising task fails the whole call. The middle
component is the caller's model object after the call; no path of
`batch_evaluation` mutates it (the function contains no `set_weights`
call). -/
def RayPredictor.batch_evaluation_forced
    (ev : Model → DataPartition → Except ExecError (MetricsMapping × List Int))
    (st : ObjectStore) (model : Model) (dataset : List DataPartition) :
    ObjectStore × Model × Except ExecError (MetricsMapping × List (List Int)) :=
  let cap := RayRemoteModel.init st model
  (cap.1, model,
    (run_evaluate_partitions ev cap.1 cap.2 (MetricCollector.init, [])
      dataset).map (fun r => (r.1.collect, r.2)))

/-- Helper: index (counting from `i`) of the last listed character
satisfying `f`; `none` when no character does. -/
def lastIdxAux (f : Char → Bool) : List Char → Nat → Option Nat
  | [], _ => none
  | c :: cs, i =>
    match lastIdxAux f cs (i + 1) with
    | some j => some j
    | none => if f c then some i else none

/-- Index (from the left) of the last character satisfying `f`; `none`
when no character does. -/
def lastIdxOf (f : Char → Bool) (cs : List Char) : Option Nat :=
  lastIdxAux f cs 0

/-- Whether the second character list is an initial segment of the
first. -/
def charsStartWith : List Char → List Char → Bool
  | _, [] => true
  | [], _ :: _ => false
  | a :: as, b :: bs => a = b && charsStartWith as bs

/-- `os.path.dirname` for POSIX paths: the text before the final slash,
with trailing slashes stripped unless the head is all slashes; empty when
there is no slash at all. -/
def os_path_dirname (p : String) : String :=
  match lastIdxOf (fun c => c = '/') p.data with
  | none => ""
  | some i =>
    let head := p.data.take (i + 1)
    if head.all (fun c => c = '/') then ⟨head⟩
    else ⟨(head.reverse.dropWhile (fun c => c = '/')).reverse⟩

/-- `os.path.join` for two POSIX path components. -/
def os_path_join (a b : String) : String :=
  if charsStartWith b.data ['/'] then b
  else if a = "" ∨ charsStartWith a.data.reverse ['/'] then a ++ b
  else a ++ "/" ++ b

/-- Split a character list on a separator character. -/
def splitChar (sep : Char) (cs : List Char) : List (List Char) :=
  cs.foldr
    (fun c acc =>
      match acc with
      | [] => [[c]]
      | g :: gs => if c = sep then [] :: g :: gs else (c :: g) :: gs)
    [[]]

/-- pathlib `Path(p).name`: the final nonempty path component. -/
def pathName (p : String) : String :=
  ⟨((splitChar '/' p.data).filter (fun s => s ≠ [])).getLastD []⟩

/-- pathlib `Path(p).stem`: the name without its final suffix; a dot at
the start or at the very end of the name does not begin a suffix. -/
def pathStem (p : String) : String :=
  let n := pathName p
  match lastIdxOf (fun c => c = '.') n.data with
  | none => n
  | some i => if 0 < i ∧ i + 1 < n.data.length then ⟨n.data.take i⟩ else n

/-- Python `x or d` on an optional string: `None` and the empty string
are falsy and fall through to the default. -/
def pyOr (x : Option String) (d : String) : String :=
  match x with
  | some s => if s = "" then d else s
  | none => d

/-- Python `x or d` where the default itself may be unavailable (it is
only evaluated when `x` is falsy, and its absence means the expression
raises). -/
def pyOrOpt (x : Option String) (d : Option String) : Option String :=
  match x with
  | some s => if s = "" then d else some s
  | none => d

/-- `CacheManager` state: the configured cache directory, possibly
absent, and the dataset manager's `data_format`. -/
structure CacheManager where
  cache_dir : Option String
  data_format : String

/-- `CacheManager.get_cache_directory`: the configured cache directory
when present, else the input file's directory, else the working
directory. -/
def CacheManager.get_cache_directory (cm : CacheManager)
    (input_fname : Option String) : String :=
  match cm.cache_dir with
  | none =>
    match input_fname with
    | some f => os_path_dirname f
    | none => "."
  | some d => d

/-- `CacheManager.get_cache_path`: default `tag` to the input file's stem
and `ext` to the data format; the cache file name is `key.tag.ext`,
replaced by `tag.ext` when no cache directory is configured, joined onto
the cache directory. `none` models the `TypeError``Path(None)` raises
when both `tag` and `input_fname` are absent. -/
def CacheManager.get_cache_path (cm : CacheManager)
    (input_fname : Option String) (key : String)
    (tag : Option String) ( ext : Option String) : Option String :=
  match pyOrOpt tag (input_fname.map pathStem) with
  | none => none
  | some tagv =>
    let extv := pyOr ext cm.data_format
    let cache_fname :=
      match cm.cache_dir with
      | none => tagv ++ "." ++ extv
      | some _ => key ++ "." ++ tagv ++ "." ++ extv
    some (os_path_join (cm.get_cache_directory input_fname) cache_fname)

/-- Fetching at the index just past a list prefix returns the element
placed there. -/
theorem get?_append_cons {α : Type} (l : List α) (v : α) (l' : List α) :
    (l ++ v :: l').get? l.length = some v := by
  induction l with
  | nil => rfl
  | cons a l ih => simpa using ih

/-- Loading a freshly captured handle from the store as it is right after
the capture reconstructs the captured model. -/
theorem load_init (st : ObjectStore) (m : Model) :
    RayRemoteModel.load (RayRemoteModel.init st m).1
      (RayRemoteModel.init st m).2 = some m := by
  show RayRemoteModel.load ⟨st.entries ++ [m.weights]⟩
      ⟨m.cls, m.args, st.entries.length⟩ = some m
  simp only [RayRemoteModel.load, ray_get]
  rw [get?_append_cons]
  rfl

/-- Loading a captured handle still reconstructs the captured model after
the store has grown by arbitrary further entries. -/
theorem load_after_init (st : ObjectStore) (m : Model)
    (extra : List (List Int)) :
    RayRemoteModel.load ⟨(RayRemoteModel.init st m).1.entries ++ extra⟩
      (RayRemoteModel.init st m).2 = some m := by
  show RayRemoteModel.load ⟨st.entries ++ [m.weights] ++ extra⟩
      ⟨m.cls, m.args, st.entries.length⟩ = some m
  simp only [RayRemoteModel.load, ray_get]
  rw [List.append_assoc, List.singleton_append, get?_append_cons]
  rfl

/-- C1: after the per-worker dispatch returns an ordered result sequence,
`RayTrainer.train` takes the weights of the first worker's result, applies
them to the caller's original model in place (class and constructor
arguments untouched), and returns that same model object together with
the first worker's auxiliary stats only; the results of all other workers
are ignored, so no averaging across workers occurs. -/
theorem rayTrainer_train_first_worker_canonical (model : Model)
    (w s : List Int) (rest : List WorkerTrainResult) :
    RayTrainer.train model (.ok ((w, s) :: rest)) =
      (model.set_weights w, .ok (model.set_weights w, s)) ∧
    (model.set_weights w).weights = w ∧
    (model.set_weights w).cls = model.cls ∧
    (model.set_weights w).args = model.args :=
  ⟨rfl, rfl, rfl, rfl⟩

/-- Forcing partition results where every task before the first raising
one succeeded fails with exactly that first error. -/
theorem forcePartitions_first_error (xs : List (Except ExecError (List Int)))
    (e : ExecError) (ys : List (Except ExecError (List Int)))
    (hxs : ∀ x ∈ xs, ∃ r, x = .ok r) :
    forcePartitions (xs ++ .error e :: ys) = .error e := by
  induction xs with
  | nil => rfl
  | cons x xs ih =>
    obtain ⟨r, hr⟩ := hxs x (List.mem_cons_self x xs)
    subst hr
    show (forcePartitions (xs ++ .error e :: ys)).map (fun rs => r :: rs) =
      .error e
    rw [ih (fun y hy => hxs y (List.mem_cons_of_mem _ hy))]
    rfl

/-- Running evaluation partition tasks where every task before `p`
succeeds and the task on `p` raises fails the whole run with that
error. -/
theorem run_evaluate_partitions_first_error
    (ev : Model → DataPartition → Except ExecError (MetricsMapping × List Int))
    (st' : ObjectStore) (hdl : RayRemoteModel) (model : Model)
    (hload : RayRemoteModel.load st' hdl = some model)
    (l1 : List DataPartition) (p : DataPartition) (l2 : List DataPartition)
    (e : ExecError)
    (hok : ∀ q ∈ l1, ∃ r, ev model q = .ok r)
    (hfail : ev model p = .error e)
    (acc : MetricCollector × List (List Int)) :
    run_evaluate_partitions ev st' hdl acc (l1 ++ p :: l2) = .error e := by
  induction l1 generalizing acc with
  | nil =>
    have hstep : batch_evaluate_partition_f ev st' hdl acc p = .error e := by
      simp [batch_evaluate_partition_f, hload, hfail]
    simp only [List.nil_append, run_evaluate_partitions, hstep]
  | cons q l1 ih =>
    obtain ⟨r, hr⟩ := hok q (List.mem_cons_self q l1)
    have hstep : batch_evaluate_partition_f ev st' hdl acc q =
        .ok (acc.1.add_metrics r.1, acc.2 ++ [r.2]) := by
      simp [batch_evaluate_partition_f, hload, hr]
    simp only [List.cons_append, run_evaluate_partitions, hstep]
    exact ih (fun y hy => hok y (List.mem_cons_of_mem q hy)) _

/-- C5: if a dispatched worker closure raises so that the dispatch
fails, the whole call fails with that error and no partial model update
is applied to the caller's model object. `RayTrainer.train` and
`RayTrainer.train_online` propagate the dispatch error with the model
untouched (`set_weights` is never reached on the failure path); for
`batch_predict` and `batch_evaluation`, run over a dataset in which the
first raising partition closure fails with `e`, the whole materialized
call fails with that same error and the caller's model object is
returned exactly as it was — those paths never mutate it. -/
theorem ray_failure_whole_call_no_partial_update (model : Model)
    (e : ExecError)
    (pred : Model → DataPartition → Except ExecError (List Int))
    (ev : Model → DataPartition → Except ExecError (MetricsMapping × List Int))
    (st : ObjectStore) (l1 l2 : List DataPartition) (p : DataPartition)
    (hpredok : ∀ q ∈ l1, ∃ r, pred model q = .ok r)
    (hpredfail : pred model p = .error e)
    (hevok : ∀ q ∈ l1, ∃ r, ev model q = .ok r)
    (hevfail : ev model p = .error e) :
    RayTrainer.train model (.error e) = (model, .error e) ∧
    RayTrainer.train_online model (.error e) = (model, .error e) ∧
    RayPredictor.batch_predict_forced pred st model (l1 ++ p :: l2) =
      ((RayRemoteModel.init st model).1, model, .error e) ∧
    RayPredictor.batch_evaluation_forced ev st model (l1 ++ p :: l2) =
      ((RayRemoteModel.init st model).1, model, .error e) := by
  have hload := load_init st model
  refine ⟨rfl, rfl, ?_, ?_⟩
  · show ((RayRemoteModel.init st model).1, model,
      forcePartitions ((l1 ++ p :: l2).map
        (batch_predict_partition_f pred (RayRemoteModel.init st model).1
          (RayRemoteModel.init st model).2))) =
      ((RayRemoteModel.init st model).1, model, .error e)
    have hclosure : batch_predict_partition_f pred
        (RayRemoteModel.init st model).1 (RayRemoteModel.init st model).2 =
          fun q => pred model q := by
      funext q
      simp [batch_predict_partition_f, hload]
    have hmap : (l1 ++ p :: l2).map
        (batch_predict_partition_f pred (RayRemoteModel.init st model).1
          (RayRemoteModel.init st model).2) =
        l1.map (fun q => pred model q) ++ .error e :: l2.map (fun q => pred model q) := by
      simp only [List.map_append, List.map_cons, hclosure, hpredfail]
    rw [hmap, forcePartitions_first_error]
    intro x hx
    obtain ⟨q, hq, hqx⟩ := List.mem_map.mp hx
    obtain ⟨r, hr⟩ := hpredok q hq
    exact ⟨r, hqx ▸ hr⟩
  · show ((RayRemoteModel.init st model).1, model,
      (run_evaluate_partitions ev (RayRemoteModel.init st model).1
        (RayRemoteModel.init st model).2 (MetricCollector.init, [])
        (l1 ++ p :: l2)).map (fun r => (r.1.collect, r.2))) =
      ((RayRemoteModel.init st model).1, model, .error e)
    rw [run_evaluate_partitions_first_error ev (RayRemoteModel.init st model).1
      (RayRemoteModel.init st model).2 model hload l1 p l2 e hevok hevfail
      (MetricCollector.init, [])]
    rfl

/-- Witness: a concrete failing worker closure on a one-partition
dataset satisfies the hypotheses, fails the whole call and leaves the
model unchanged. -/
theorem ray_failure_whole_call_no_partial_update_witness :
    RayTrainer.train ⟨0, [], [5]⟩ (.error (.workerFailure 7)) =
      (⟨0, [], [5]⟩, .error (.workerFailure 7)) ∧
    RayPredictor.batch_predict_forced
      (fun _ _ => .error (.workerFailure 7)) ⟨[]⟩ ⟨0, [], [5]⟩ [[1]] =
      ((RayRemoteModel.init ⟨[]⟩ ⟨0, [], [5]⟩).1, ⟨0, [], [5]⟩,
        .error (.workerFailure 7)) ∧
    RayPredictor.batch_evaluation_forced
      (fun _ _ => .error (.workerFailure 7)) ⟨[]⟩ ⟨0, [], [5]⟩ [[1]] =
      ((RayRemoteModel.init ⟨[]⟩ ⟨0, [], [5]⟩).1, ⟨0, [], [5]⟩,
        .error (.workerFailure 7)) := by
  have h := ray_failure_whole_call_no_partial_update ⟨0, [], [5]⟩
    (.workerFailure 7) (fun _ _ => .error (.workerFailure 7))
    (fun _ _ => .error (.workerFailure 7)) ⟨[]⟩ [] [] [1]
    (by simp) rfl (by simp) rfl
  exact ⟨h.1, h.2.2.1, h.2.2.2⟩

/-- C3: capturing a model and loading the resulting handle reconstructs
an instance whose class, constructor arguments and observable state all
equal the original model's at capture time, and this keeps holding after
the store has grown by arbitrary later entries; each load is a read-only
store access building a fresh instance, so any number of load invocations
of the same handle return this same reconstruction. -/
theorem rayRemoteModel_load_roundtrip (st : ObjectStore) (m : Model)
    (extra : List (List Int)) :
    RayRemoteModel.load ⟨(RayRemoteModel.init st m).1.entries ++ extra⟩
      (RayRemoteModel.init st m).2 = some m :=
  load_after_init st m extra

/-- C8: with an empty set of node resource reports the bucketer fails
rather than returning a configuration (Python `max` raises on the empty
bucket dict; the spec names this failure `ResourceDiscoveryError`). -/
theorem get_horovod_kwargs_empty_fails : get_horovod_kwargs [] = none := rfl

/-- C9: `collect` is a pure read of the actor state: it leaves the list
of received mappings unchanged, two consecutive `collect` invocations
with no `add_metrics` in between return equal mappings, and `collect` on
a fresh collector returns the empty mapping rather than failing. -/
theorem metricCollector_collect_read_only (c : MetricCollector) :
    (c.step .collect).1 = c ∧
    ((c.step .collect).1.step .collect).2 = (c.step .collect).2 ∧
    (MetricCollector.init.step .collect).2 = some [] :=
  ⟨rfl, rfl, rfl⟩

/-- The running best of the Python `max` fold dominates the start value
and every element seen, and is either the start value or sits at a
position in the list such that everything strictly before it scores
strictly less. -/
theorem pyFold_spec {α : Type} (score : α → Nat) (ys : List α) (best : α) :
    (∀ y ∈ ys, score y ≤ score (pyFold score best ys)) ∧
    score best ≤ score (pyFold score best ys) ∧
    (pyFold score best ys = best ∨
      ∃ l1 l2, ys = l1 ++ pyFold score best ys :: l2 ∧
        score best < score (pyFold score best ys) ∧
        ∀ y ∈ l1, score y < score (pyFold score best ys)) := by
  induction ys generalizing best with
  | nil =>
    refine ⟨?_, le_refl _, Or.inl rfl⟩
    intro y hy
    simp at hy
  | cons y ys ih =>
    by_cases h : score best < score y
    · have hr : pyFold score best (y :: ys) = pyFold score y ys := by
        simp [pyFold, List.foldl_cons, if_pos h]
      obtain ⟨h1, h2, h3⟩ := ih y
      rw [hr]
      refine ⟨?_, le_of_lt (lt_of_lt_of_le h h2), ?_⟩
      · intro z hz
        rcases List.mem_cons.mp hz with hz | hz
        · exact hz ▸ h2
        · exact h1 z hz
      · rcases h3 with h3 | ⟨l1, l2, hsplit, hlt, hall⟩
        · refine Or.inr ⟨[], ys, by simp [h3], ?_, ?_⟩
          · rw [h3]; exact h
          · intro z hz; simp at hz
        · refine Or.inr ⟨y :: l1, l2, by rw [List.cons_append, ← hsplit],
            lt_of_lt_of_le h h2, ?_⟩
          intro z hz
          rcases List.mem_cons.mp hz with hz | hz
          · exact hz ▸ hlt
          · exact hall z hz
    · have hr : pyFold score best (y :: ys) = pyFold score best ys := by
        simp [pyFold, List.foldl_cons, if_neg h]
      obtain ⟨h1, h2, h3⟩ := ih best
      rw [hr]
      refine ⟨?_, h2, ?_⟩
      · intro z hz
        rcases List.mem_cons.mp hz with hz | hz
        · exact hz ▸ le_trans (Nat.le_of_not_lt h) h2
        · exact h1 z hz
      · rcases h3 with h3 | ⟨l1, l2, hsplit, hlt, hall⟩
        · exact Or.inl h3
        · refine Or.inr ⟨y :: l1, l2, by rw [List.cons_append, ← hsplit], hlt, ?_⟩
          intro z hz
          rcases List.mem_cons.mp hz with hz | hz
          · exact hz ▸ lt_of_le_of_lt (Nat.le_of_not_lt h) hlt
          · exact hall z hz

/-- Python `max` on a nonempty sequence returns the first element
attaining the maximal score: it dominates all elements, and everything
strictly before its position scores strictly less. -/
theorem pyMaxBy_spec {α : Type} (score : α → Nat) (x : α) (xs : List α) :
    ∃ r l1 l2, pyMaxBy score (x :: xs) = some r ∧
      x :: xs = l1 ++ r :: l2 ∧
      (∀ y ∈ x :: xs, score y ≤ score r) ∧
      (∀ y ∈ l1, score y < score r) := by
  obtain ⟨h1, h2, h3⟩ := pyFold_spec score xs x
  refine ⟨pyFold score x xs, ?_⟩
  rcases h3 with h3 | ⟨l1, l2, hsplit, hlt, hall⟩
  · refine ⟨[], xs, rfl, by simp [h3], ?_, ?_⟩
    · intro y hy
      rcases List.mem_cons.mp hy with hy | hy
      · exact hy ▸ h2
      · exact h1 y hy
    · intro y hy; simp at hy
  · refine ⟨x :: l1, l2, rfl, by rw [List.cons_append, ← hsplit], ?_, ?_⟩
    · intro y hy
      rcases List.mem_cons.mp hy with hy | hy
      · exact hy ▸ h2
      · exact h1 y hy
    · intro y hy
      rcases List.mem_cons.mp hy with hy | hy
      · exact hy ▸ hlt
      · exact hall y hy

/-- Appending a node to the bucket list never empties it. -/
theorem addToBuckets_ne_nil (bs : List Bucket) (k : Nat) (n : NodeResources) :
    addToBuckets bs k n ≠ [] := by
  cases bs with
  | nil => simp [addToBuckets]
  | cons b rest =>
    obtain ⟨k', ns⟩ := b
    simp only [addToBuckets]
    split <;> simp

/-- The bucket fold never empties a bucket list that starts nonempty or
consumes at least one node. -/
theorem foldl_addToBuckets_ne_nil (nodes : List NodeResources) (ug : Bool)
    (bs : List Bucket) (hbs : bs ≠ [] ∨ nodes ≠ []) :
    nodes.foldl (fun acc n => addToBuckets acc (nodeCount ug n) n) bs ≠ [] := by
  induction nodes generalizing bs with
  | nil =>
    rcases hbs with h | h
    · exact h
    · exact absurd rfl h
  | cons n ns ih =>
    simp only [List.foldl_cons]
    exact ih (addToBuckets bs (nodeCount ug n) n)
      (Or.inl (addToBuckets_ne_nil bs (nodeCount ug n) n))

/-- A nonempty node list produces a nonempty bucket list. -/
theorem buildBuckets_ne_nil (ug : Bool) (nodes : List NodeResources)
    (h : nodes ≠ []) : buildBuckets ug nodes ≠ [] :=
  foldl_addToBuckets_ne_nil nodes ug [] (Or.inr h)

/-- C2: for every nonempty set of node resource reports, the bucketer
targets GPUs exactly when the cluster-wide GPU total is positive, groups
the nodes into buckets by their integer count of that resource, scores
each bucket as count times number of nodes, and returns the bucket with
the maximal score, ties broken in favour of the first-seen bucket key
(everything strictly before the winner in bucket order scores strictly
less); in particular a 4-node cluster reporting GPU counts [2,2,2,0]
yields num_slots=2, num_hosts=3, use_gpu=true. -/
theorem get_horovod_kwargs_bucket_selection (nodes : List NodeResources)
    (h : nodes ≠ []) :
    (∃ kw ns l1 l2,
      get_horovod_kwargs nodes = some kw ∧
      kw.use_gpu = decide (0 < clusterGpuTotal nodes) ∧
      buildBuckets (decide (0 < clusterGpuTotal nodes)) nodes =
        l1 ++ (kw.num_slots, ns) :: l2 ∧
      kw.num_hosts = ns.length ∧
      (∀ b ∈ buildBuckets (decide (0 < clusterGpuTotal nodes)) nodes,
        get_total_resources b ≤ kw.num_slots * kw.num_hosts) ∧
      (∀ b ∈ l1, get_total_resources b < kw.num_slots * kw.num_hosts)) ∧
    get_horovod_kwargs [⟨2, 8⟩, ⟨2, 8⟩, ⟨2, 8⟩, ⟨0, 8⟩] = some ⟨2, 3, true⟩ := by
  constructor
  · set ug := decide (0 < clusterGpuTotal nodes) with hug
    obtain ⟨b0, bs, hb⟩ := List.exists_cons_of_ne_nil (buildBuckets_ne_nil ug nodes h)
    obtain ⟨r, l1, l2, hmax, hsplit, hle, hlt⟩ :=
      pyMaxBy_spec get_total_resources b0 bs
    refine ⟨⟨r.1, r.2.length, ug⟩, r.2, l1, l2, ?_, rfl, ?_, rfl, ?_, ?_⟩
    · show (pyMaxBy get_total_resources (buildBuckets ug nodes)).map
        (fun b => (⟨b.1, b.2.length, ug⟩ : HorovodKwargs)) =
          some ⟨r.1, r.2.length, ug⟩
      rw [hb, hmax]
      rfl
    · show buildBuckets ug nodes = l1 ++ (r.1, r.2) :: l2
      rw [hb]
      exact hsplit
    · intro b hbmem
      rw [hb] at hbmem
      exact hle b hbmem
    · intro b hbmem
      exact hlt b hbmem
  · decide

/-- Witness: the concrete 4-node cluster of the claim satisfies the
hypothesis and the selected configuration. -/
theorem get_horovod_kwargs_bucket_selection_witness :
    (([⟨2, 8⟩, ⟨2, 8⟩, ⟨2, 8⟩, ⟨0, 8⟩] : List NodeResources) ≠ []) ∧
    get_horovod_kwargs [⟨2, 8⟩, ⟨2, 8⟩, ⟨2, 8⟩, ⟨0, 8⟩] = some ⟨2, 3, true⟩ :=
  ⟨by decide,
    (get_horovod_kwargs_bucket_selection [⟨2, 8⟩, ⟨2, 8⟩, ⟨2, 8⟩, ⟨0, 8⟩]
      (by decide)).2⟩

/-- Folding single-entry mappings that all share one key sums their
values onto the existing entry. -/
theorem foldl_addEntry_single (name : String) (as : List ℚ) (v : ℚ) :
    as.foldl (fun acc x => addEntry acc (name, x)) [(name, v)] =
      [(name, v + as.sum)] := by
  induction as generalizing v with
  | nil => simp
  | cons a as ih =>
    simp only [List.foldl_cons]
    have h1 : addEntry [(name, v)] (name, a) = [(name, v + a)] := by
      simp [addEntry]
    rw [h1, ih]
    simp [add_assoc]

/-- Merging a nonempty list of single-entry mappings sharing one key
yields that key mapped to the sum of the values. -/
theorem sum_dicts_single_key (name : String) (a : ℚ) (as : List ℚ) :
    sum_dicts ((a :: as).map (fun x => [(name, x)])) =
      [(name, (a :: as).sum)] := by
  simp only [sum_dicts, List.map_cons, List.foldl_cons, List.foldl_map,
    List.foldl_nil]
  have h0 : addEntry ([] : MetricsMapping) (name, a) = [(name, a)] := rfl
  rw [h0, foldl_addEntry_single]
  simp

/-- The collector resulting from one `add_metrics` per listed value, each
pushing the single-key mapping with the given name, in list order. -/
def addsOf (name : String) (as : List ℚ) : MetricCollector :=
  as.foldl (fun c a => c.add_metrics [(name, a)]) MetricCollector.init

/-- The collector built by `addsOf` holds exactly the pushed mappings, in
arrival order. -/
theorem addsOf_metrics (name : String) (as : List ℚ) :
    (addsOf name as).metrics = as.map (fun a => [(name, a)]) := by
  have hgen : ∀ c : MetricCollector,
      (as.foldl (fun c a => c.add_metrics [(name, a)]) c).metrics =
        c.metrics ++ as.map (fun a => [(name, a)]) := by
    induction as with
    | nil => intro c; simp
    | cons a as ih =>
      intro c
      simp only [List.foldl_cons, List.map_cons]
      rw [ih]
      simp [MetricCollector.add_metrics, List.append_assoc]
  simpa [addsOf, MetricCollector.init] using hgen MetricCollector.init

/-- Collecting after a nonempty sequence of single-key pushes returns
that key mapped to the sum of the pushed values. -/
theorem collect_addsOf (name : String) (a : ℚ) (as : List ℚ) :
    (addsOf name (a :: as)).collect = [(name, (a :: as).sum)] := by
  rw [MetricCollector.collect, addsOf_metrics, sum_dicts_single_key]

/-- C4: after a nonempty sequence of `add_metrics` calls each pushing a
single-key mapping, `collect` returns that key mapped to the sum of the
pushed values, merging being element-wise summation keyed by metric name;
the result is the same for every arrival order (permutation) of the
pushes; in particular pushing loss values 1, 2 and 1/2 collects to
loss = 7/2. -/
theorem metricCollector_sum_order_independent (name : String) (as : List ℚ)
    (h : as ≠ []) :
    (addsOf name as).collect = [(name, as.sum)] ∧
    (∀ bs : List ℚ, as.Perm bs →
      (addsOf name bs).collect = (addsOf name as).collect) ∧
    (((MetricCollector.init.add_metrics [("loss", 1)]).add_metrics
        [("loss", 2)]).add_metrics [("loss", 1/2)]).collect =
      [("loss", (7 : ℚ)/2)] := by
  obtain ⟨a, as', rfl⟩ := List.exists_cons_of_ne_nil h
  refine ⟨collect_addsOf name a as', ?_, ?_⟩
  · intro bs hp
    have hb : bs ≠ [] := by
      intro hbnil
      subst hbnil
      exact h hp.eq_nil
    obtain ⟨b, bs', rfl⟩ := List.exists_cons_of_ne_nil hb
    rw [collect_addsOf, collect_addsOf, hp.sum_eq]
  · simp [MetricCollector.collect, MetricCollector.add_metrics,
      MetricCollector.init, sum_dicts, addEntry]
    norm_num

/-- Witness: the concrete three-push sequence of the claim satisfies the
hypothesis and collects to the summed mapping. -/
theorem metricCollector_sum_order_independent_witness :
    (([1, 2, 1/2] : List ℚ) ≠ []) ∧
    (addsOf "loss" [1, 2, 1/2]).collect =
      [("loss", ([1, 2, 1/2] : List ℚ).sum)] :=
  ⟨List.cons_ne_nil 1 [2, 1/2],
    (metricCollector_sum_order_independent "loss" [1, 2, 1/2]
      (List.cons_ne_nil 1 [2, 1/2])).1⟩

/-- Folding the evaluation partition task over a dataset, when every load
of the handle reconstructs the captured model, accumulates exactly the
per-partition metrics and predictions in partition order. -/
theorem batch_evaluate_partition_foldl
    (ev : Model → DataPartition → MetricsMapping × List Int)
    (st' : ObjectStore) (hdl : RayRemoteModel) (model : Model)
    (hload : RayRemoteModel.load st' hdl = some model)
    (dataset : List DataPartition) (c : MetricCollector)
    (acc : List (Option (List Int))) :
    dataset.foldl (batch_evaluate_partition ev st' hdl) (c, acc) =
      (⟨c.metrics ++ dataset.map (fun p => (ev model p).1)⟩,
       acc ++ dataset.map (fun p => some (ev model p).2)) := by
  induction dataset generalizing c acc with
  | nil => simp
  | cons p ps ih =>
    simp only [List.foldl_cons, List.map_cons]
    have hstep : batch_evaluate_partition ev st' hdl (c, acc) p =
        (c.add_metrics (ev model p).1, acc ++ [some (ev model p).2]) := by
      simp [batch_evaluate_partition, hload]
    rw [hstep, ih]
    simp [MetricCollector.add_metrics, List.append_assoc]

/-- C6: one call to `batch_predict` or `batch_evaluation` captures the
model exactly once: the store grows by exactly the one state blob,
published before any partition task runs, no matter how many partitions
the dataset has; and every partition task loads that same handle, so each
operates on the same reconstruction of the captured model — no handle is
re-captured per partition. -/
theorem rayPredictor_capture_once
    (pred : Model → DataPartition → List Int)
    (ev : Model → DataPartition → MetricsMapping × List Int)
    (st : ObjectStore) (model : Model) (dataset : List DataPartition) :
    RayPredictor.batch_predict pred st model dataset =
      (⟨st.entries ++ [model.weights]⟩,
       dataset.map (fun p => some (pred model p))) ∧
    RayPredictor.batch_evaluation ev st model dataset =
      (⟨st.entries ++ [model.weights]⟩,
       sum_dicts (dataset.map (fun p => (ev model p).1)),
       dataset.map (fun p => some (ev model p).2)) := by
  have hload := load_init st model
  constructor
  · have hpt : batch_predict_partition pred (RayRemoteModel.init st model).1
        (RayRemoteModel.init st model).2 = fun p => some (pred model p) := by
      funext p
      simp [batch_predict_partition, hload]
    show ((RayRemoteModel.init st model).1,
        dataset.map (batch_predict_partition pred (RayRemoteModel.init st model).1
          (RayRemoteModel.init st model).2)) =
      (⟨st.entries ++ [model.weights]⟩,
       dataset.map (fun p => some (pred model p)))
    rw [hpt]
    rfl
  · show ((RayRemoteModel.init st model).1,
      (dataset.foldl
        (batch_evaluate_partition ev (RayRemoteModel.init st model).1
          (RayRemoteModel.init st model).2) (MetricCollector.init, [])).1.collect,
      (dataset.foldl
        (batch_evaluate_partition ev (RayRemoteModel.init st model).1
          (RayRemoteModel.init st model).2) (MetricCollector.init, [])).2) =
      (⟨st.entries ++ [model.weights]⟩,
       sum_dicts (dataset.map (fun p => (ev model p).1)),
       dataset.map (fun p => some (ev model p).2))
    rw [batch_evaluate_partition_foldl ev (RayRemoteModel.init st model).1
      (RayRemoteModel.init st model).2 model hload dataset MetricCollector.init []]
    rfl

/-- Lookup after a Python dict assignment: the assigned key reads the new
value, every other key is unaffected. -/
theorem dictGet_dictInsert (d : KwDict) (k : String) (v : KwVal) (k' : String) :
    dictGet (dictInsert d k v) k' = if k = k' then some v else dictGet d k' := by
  induction d with
  | nil => simp [dictInsert, dictGet]
  | cons kv rest ih =>
    obtain ⟨k'', v''⟩ := kv
    by_cases h : k'' = k
    · subst h
      simp only [dictInsert, if_pos rfl, dictGet]
      split_ifs <;> rfl
    · simp only [dictInsert, if_neg h, dictGet, ih]
      by_cases h1 : k'' = k'
      · have h2 : ¬(k = k') := fun hk => h (h1.trans hk.symm)
        simp [h1, h2]
      · simp [h1]

/-- A key absent from a dict looks up to nothing. -/
theorem dictGet_eq_none_of_not_mem (d : KwDict) (k : String)
    (h : k ∉ d.map Prod.fst) : dictGet d k = none := by
  induction d with
  | nil => rfl
  | cons kv rest ih =>
    obtain ⟨k', v'⟩ := kv
    simp only [List.map_cons, List.mem_cons] at h
    push_neg at h
    simp only [dictGet]
    rw [if_neg (fun he => h.1 he.symm)]
    exact ih h.2

/-- Lookup in a Python dict merge: a key present in the second dict reads
its value there, any other key falls back to the first dict. -/
theorem dictGet_dictMerge (a b : KwDict) (hnd : (b.map Prod.fst).Nodup)
    (k : String) :
    dictGet (dictMerge a b) k =
      (match dictGet b k with
       | some v => some v
       | none => dictGet a k) := by
  induction b generalizing a with
  | nil => simp [dictMerge, dictGet]
  | cons kv rest ih =>
    obtain ⟨k0, v0⟩ := kv
    have hnd' : (rest.map Prod.fst).Nodup := (List.nodup_cons.mp hnd).2
    have hk0 : k0 ∉ rest.map Prod.fst := by
      have := (List.nodup_cons.mp hnd).1
      simpa using this
    have hmerge : dictMerge a ((k0, v0) :: rest) =
        dictMerge (dictInsert a k0 v0) rest := rfl
    rw [hmerge, ih (dictInsert a k0 v0) hnd']
    by_cases h : k0 = k
    · subst h
      have hrest : dictGet rest k0 = none := dictGet_eq_none_of_not_mem rest k0 hk0
      have hb : dictGet ((k0, v0) :: rest) k0 = some v0 := by
        simp [dictGet]
      rw [hrest, hb, dictGet_dictInsert]
      simp
    · have hb : dictGet ((k0, v0) :: rest) k = dictGet rest k := by
        simp [dictGet, h]
      rw [hb, dictGet_dictInsert, if_neg h]

/-- C7 counterexample: a caller override of the coordination timeout does
not replace the derived value — the executor settings keep the hardcoded
30 seconds, so the claimed field-by-field precedence fails for
`coordination_timeout_seconds` at this concrete input. -/
theorem rayTrainer_timeout_override_ignored :
    (RayTrainer.init_setup ⟨2, 3, true⟩
      [("coordination_timeout_seconds", .nat 60)]).timeout_s = 30 ∧
    (RayTrainer.init_setup ⟨2, 3, true⟩
      [("coordination_timeout_seconds", .nat 60)]).timeout_s ≠ 60 :=
  ⟨rfl, by decide⟩

/-- C7 amended: the worker-group configuration passed to the executor is
the resource-derived configuration with caller overrides taking
precedence field-by-field for every keyword (in particular `num_slots`,
`num_hosts` and `use_gpu`): a key present in the overrides replaces the
derived value and a key absent keeps the derived value; the coordination
timeout, however, is fixed at 30 seconds and is not overridable. -/
theorem rayTrainer_overrides_field_by_field (derived : HorovodKwargs)
    (overrides : KwDict) (hnd : (overrides.map Prod.fst).Nodup) :
    (RayTrainer.init_setup derived overrides).timeout_s = 30 ∧
    ∀ k, dictGet (RayTrainer.init_setup derived overrides).kwargs k =
      (match dictGet overrides k with
       | some v => some v
       | none => dictGet derived.toDict k) :=
  ⟨rfl, fun k => dictGet_dictMerge derived.toDict overrides hnd k⟩

/-- Witness: a concrete override dict with distinct keys, whose
`num_slots` entry wins over the derived value. -/
theorem rayTrainer_overrides_field_by_field_witness :
    ((([("num_slots", KwVal.nat 4),
        ("coordination_timeout_seconds", KwVal.nat 60)] : KwDict).map
          Prod.fst).Nodup) ∧
    (RayTrainer.init_setup ⟨2, 3, true⟩
      [("num_slots", KwVal.nat 4),
       ("coordination_timeout_seconds", KwVal.nat 60)]).timeout_s = 30 ∧
    dictGet (RayTrainer.init_setup ⟨2, 3, true⟩
      [("num_slots", KwVal.nat 4),
       ("coordination_timeout_seconds", KwVal.nat 60)]).kwargs "num_slots" =
      some (KwVal.nat 4) := by
  refine ⟨by decide, (rayTrainer_overrides_field_by_field ⟨2, 3, true⟩
    [("num_slots", KwVal.nat 4), ("coordination_timeout_seconds", KwVal.nat 60)]
    (by decide)).1, ?_⟩
  have h := (rayTrainer_overrides_field_by_field ⟨2, 3, true⟩
    [("num_slots", KwVal.nat 4), ("coordination_timeout_seconds", KwVal.nat 60)]
    (by decide)).2 "num_slots"
  rw [h]
  decide

/-- Python `or` against an available default is the plain `or`. -/
theorem pyOrOpt_some (x : Option String) (d : String) :
    pyOrOpt x (some d) = some (pyOr x d) := by
  cases x with
  | none => rfl
  | some s =>
    simp only [pyOrOpt, pyOr]
    split_ifs <;> rfl

/-- C10: when the manager is built with no cache directory,
`get_cache_path` omits the cache key from the produced file name: for the
same input file, any two keys (hence the distinct keys of two distinct
configurations) yield the same path, so the cache entries collide; the
path is the input file's directory joined with `tag.ext`, not
`key.tag.ext`. -/
theorem cacheManager_cache_path_collision (df input key1 key2 : String)
    (tag : Option String) ( ext : Option String) :
    CacheManager.get_cache_path ⟨none, df⟩ (some input) key1 tag ext =
      CacheManager.get_cache_path ⟨none, df⟩ (some input) key2 tag ext ∧
    CacheManager.get_cache_path ⟨none, df⟩ (some input) key1 tag ext =
      some (os_path_join (os_path_dirname input)
        (pyOr tag (pathStem input) ++ "." ++ pyOr ext df)) := by
  have key_free : ∀ key : String,
      CacheManager.get_cache_path ⟨none, df⟩ (some input) key tag ext =
        some (os_path_join (os_path_dirname input)
          (pyOr tag (pathStem input) ++ "." ++ pyOr ext df)) := by
    intro key
    simp only [CacheManager.get_cache_path, Option.map_some', pyOrOpt_some]
    rfl
  exact ⟨(key_free key1).trans (key_free key2).symm, key_free key1⟩
